import Mathlib

/-!
Shallow embedding of the Meera OS hive-mind memory engine
(`src/memory/nodes.py`, `src/memory/storage.py`, `src/agents/shiva.py`)
and proofs checking the natural-language specification against it.

Modelling conventions:
* Python `datetime` values are modelled as `Nat` (a totally ordered clock);
  `isoformat` becomes an injective rendering to `String`.
* Python `float` values (recency weights, embedding coordinates) are
  modelled as `Rat`; the code only ever compares or stores them.
* A raising Python call is modelled by an explicit failure flag on the
  operation (`mongoFails`, `chromaFails`) or an `Except`-returning service
  handle; a caught exception is a `match` on that result.
* The MongoDB collections and the Chroma collection are association lists
  keyed by id; `replace_one`/`upsert` keep the position of an existing key.
-/

deriving instance DecidableEq for Except

namespace MeeraOS

/-- Python `str(bool)`: `True` / `False`, the strings Chroma metadata stores. -/
def pyStrBool : Bool → String
  | true => "True"
  | false => "False"

/-- Python truthiness of an `Optional[str]`: `None` and `""` are falsy. -/
def pyTruthyStr : Option String → Bool
  | none => false
  | some s => !(s == "")

/-- Python slice `s[:n]` on a string. -/
def pyTakeChars (n : Nat) (s : String) : String :=
  List.asString (s.data.take n)

/-- Python `datetime.isoformat()`, over the `Nat` clock model (injective rendering). -/
def pyIsoformat (t : Nat) : String := toString t

/-- MongoDB `replace_one({_id: k}, v, upsert=True)` on an association list:
replace in place when the key exists (the `_id` index keeps keys unique),
append otherwise. -/
def upsertA {β : Type} (l : List (String × β)) (k : String) (v : β) : List (String × β) :=
  if l.any (fun p => p.1 == k) then
    l.map (fun p => if p.1 == k then (k, v) else p)
  else
    l ++ [(k, v)]

/-- Stable descending insertion by key: an element is placed before the first
element of strictly smaller key, so equal keys keep their original order.
This is the behaviour of Python `list.sort(key=..., reverse=True)`. -/
def insertDescBy {α β : Type} [LinearOrder β] (k : α → β) (a : α) : List α → List α
  | [] => [a]
  | b :: bs => if k a < k b then b :: insertDescBy k a bs else a :: b :: bs

/-- Stable sort, descending by key (Python `list.sort(key=..., reverse=True)`). -/
def sortDescBy {α β : Type} [LinearOrder β] (k : α → β) : List α → List α
  | [] => []
  | a :: as => insertDescBy k a (sortDescBy k as)

theorem insertDescBy_perm {α β : Type} [LinearOrder β] (k : α → β) (a : α) :
    ∀ l : List α, (insertDescBy k a l).Perm (a :: l) := by
  intro l
  induction l with
  | nil => simp [insertDescBy]
  | cons b bs ih =>
    by_cases h : k a < k b
    · simp only [insertDescBy, if_pos h]
      exact (ih.cons b).trans (List.Perm.swap a b bs)
    · simp [insertDescBy, if_neg h]

theorem sortDescBy_perm {α β : Type} [LinearOrder β] (k : α → β) :
    ∀ l : List α, (sortDescBy k l).Perm l := by
  intro l
  induction l with
  | nil => simp [sortDescBy]
  | cons a as ih =>
    exact (insertDescBy_perm k a (sortDescBy k as)).trans (ih.cons a)

theorem insertDescBy_pairwise {α β : Type} [LinearOrder β] (k : α → β) (a : α) :
    ∀ l : List α, l.Pairwise (fun x y => k y ≤ k x) →
      (insertDescBy k a l).Pairwise (fun x y => k y ≤ k x) := by
  intro l
  induction l with
  | nil => intro _; simp [insertDescBy]
  | cons b bs ih =>
    intro hp
    rcases List.pairwise_cons.1 hp with ⟨hb, hbs⟩
    by_cases h : k a < k b
    · simp only [insertDescBy, if_pos h]
      refine List.pairwise_cons.2 ⟨?_, ih hbs⟩
      intro x hx
      rcases List.mem_cons.1 (((insertDescBy_perm k a bs).mem_iff).1 hx) with hxa | hxb
      · subst hxa; exact le_of_lt h
      · exact hb x hxb
    · simp only [insertDescBy, if_neg h]
      refine List.pairwise_cons.2 ⟨?_, hp⟩
      intro x hx
      rcases List.mem_cons.1 hx with hxb | hxbs
      · subst hxb; exact le_of_not_lt h
      · exact le_trans (hb x hxbs) (le_of_not_lt h)

theorem sortDescBy_pairwise {α β : Type} [LinearOrder β] (k : α → β) :
    ∀ l : List α, (sortDescBy k l).Pairwise (fun x y => k y ≤ k x) := by
  intro l
  induction l with
  | nil => simp [sortDescBy]
  | cons a as ih => exact insertDescBy_pairwise k a (sortDescBy k as) ih

theorem lookup_map_replace {β : Type} (k : String) (v : β) :
    ∀ l : List (String × β), l.any (fun p => p.1 == k) →
      (l.map (fun p => if p.1 == k then (k, v) else p)).lookup k = some v := by
  intro l
  induction l with
  | nil => intro h; simp at h
  | cons p ps ih =>
    intro h
    by_cases hp : p.1 = k
    · have hpb : (p.1 == k) = true := beq_iff_eq.2 hp
      simp only [List.map_cons, if_pos hpb, List.lookup_cons, beq_self_eq_true]
    · have hpb : (p.1 == k) = false := beq_eq_false_iff_ne.2 hp
      have hkk : (k == p.1) = false := beq_eq_false_iff_ne.2 (Ne.symm hp)
      have h2 : ps.any (fun q => q.1 == k) := by
        simp only [List.any_cons, hpb, Bool.false_or] at h
        exact h
      have hrep : (if (p.1 == k) = true then (k, v) else p) = p := if_neg (by simp [hpb])
      cases p with
      | mk a b =>
        simp only [List.map_cons, hrep, List.lookup_cons] at *
        simp only [hkk]
        exact ih h2

theorem lookup_append_missing {β : Type} (k : String) (v : β) :
    ∀ l : List (String × β), ¬ l.any (fun p => p.1 == k) →
      (l ++ [(k, v)]).lookup k = some v := by
  intro l
  induction l with
  | nil => intro _; simp [List.lookup]
  | cons p ps ih =>
    intro h
    simp only [List.any_cons, Bool.or_eq_true, not_or] at h
    obtain ⟨hp, hps⟩ := h
    have hpb : (p.1 == k) = false := Bool.not_eq_true _ ▸ hp
    have hkk : (k == p.1) = false :=
      beq_eq_false_iff_ne.2 (Ne.symm (beq_eq_false_iff_ne.1 hpb))
    have h2 : ¬ ps.any (fun q => q.1 == k) := by
      intro hc
      exact hps (by simpa using hc)
    simp [List.lookup, hkk, ih h2]

theorem lookup_upsertA {β : Type} (l : List (String × β)) (k : String) (v : β) :
    (upsertA l k v).lookup k = some v := by
  unfold upsertA
  by_cases h : l.any (fun p => p.1 == k)
  · simp only [if_pos h]
    exact lookup_map_replace k v l h
  · simp only [if_neg h]
    exact lookup_append_missing k v l h

/-! ## Data model (`src/memory/nodes.py`) -/

/-- `MemoryType(str, Enum)`: the four memory categories. -/
inductive MemoryType where
  | personal_identity
  | preference
  | factual
  | emotional_state
deriving DecidableEq

/-- The `.value` string of each enum member. -/
def MemoryType.value : MemoryType → String
  | .personal_identity => "personal_identity"
  | .preference => "preference"
  | .factual => "factual"
  | .emotional_state => "emotional_state"

/-- Python `MemoryType(s)`: `some` the matching member, `none` models the
`ValueError` raised for a string that is not a member value. -/
def MemoryType.ofValue? : String → Option MemoryType
  | "personal_identity" => some .personal_identity
  | "preference" => some .preference
  | "factual" => some .factual
  | "emotional_state" => some .emotional_state
  | _ => none

/-- `MemoryNode` (pydantic model). `timestamp` is the `Nat` clock,
`recency_value` and embedding coordinates are `Rat`. -/
structure MemoryNode where
  memory_id : String
  user_id : String
  content : String
  memory_type : MemoryType
  timestamp : Nat
  tags : List String
  recency_value : Rat
  source : String
  embedding : Option (List Rat)
  conversation_context : Option String
  system_prompt_snippet : Option String
  is_hive_mind : Bool
deriving DecidableEq

/-- Leaf of a free-form profile value (`Dict[str, Any]` leaves). -/
inductive PyLeaf where
  | pstr : String → PyLeaf
  | pint : Int → PyLeaf
  | pbool : Bool → PyLeaf
  | pnone : PyLeaf
deriving DecidableEq

/-- A free-form profile value: scalar, sequence or mapping of leaves
(bounded-depth model of the `Dict[str, Any]` identity fields; the code
only carries these values through unchanged). -/
inductive PyVal where
  | leaf : PyLeaf → PyVal
  | pseq : List PyLeaf → PyVal
  | pmap : List (String × PyLeaf) → PyVal
deriving DecidableEq

/-- `UserIdentity` (pydantic model). -/
structure UserIdentity where
  user_id : String
  name : Option String
  age : Option Int
  gender : Option String
  origin : Option String
  current_context : Option String
  primary_role : Option String
  personal_identity : List (String × PyVal)
  professional_identity : List (String × PyVal)
  created_at : Nat
  updated_at : Nat
deriving DecidableEq

/-! ## Memory Store (`src/memory/storage.py`) -/

/-- The metadata projection `save_memory` writes next to a vector
(all values Chroma-stringified exactly as in the code). -/
structure ChromaMeta where
  user_id : String
  memory_type : String
  timestamp : String
  is_hive_mind : String
  tags : String
deriving DecidableEq

/-- One entry of the Chroma collection: vector, metadata and document text. -/
structure ChromaEntry where
  embedding : List Rat
  metadata : ChromaMeta
  document : String
deriving DecidableEq

/-- The metadata projection of a memory node, as built in `save_memory`. -/
def chromaMetaOf (memory : MemoryNode) : ChromaMeta :=
  { user_id := memory.user_id
    memory_type := memory.memory_type.value
    timestamp := pyIsoformat memory.timestamp
    is_hive_mind := pyStrBool memory.is_hive_mind
    tags := String.intercalate "," memory.tags }

/-- The two MongoDB collections and the Chroma collection, as association
lists keyed by `_id`. -/
structure StorageState where
  memory_docs : List (String × MemoryNode)
  identity_docs : List (String × UserIdentity)
  chroma : List (String × ChromaEntry)
deriving DecidableEq

/-- The empty stores. -/
def emptyState : StorageState := { memory_docs := [], identity_docs := [], chroma := [] }

/-- `MemoryStorage.save_memory`. The document write happens first; the
vector upsert runs only when `memory.embedding` is Python-truthy (present
and non-empty). The enclosing `try`/`except` logs and **re-raises**, so any
backend failure surfaces as an error while writes already performed remain
applied. `mongoFails` / `chromaFails` model the respective backend call
raising. -/
def save_memory (mongoFails chromaFails : Bool) (st : StorageState) (memory : MemoryNode) :
    StorageState × Except String String :=
  if mongoFails then (st, .error "mongo write failed")
  else
    let st1 := { st with memory_docs := upsertA st.memory_docs memory.memory_id memory }
    match memory.embedding with
    | none => (st1, .ok memory.memory_id)
    | some emb =>
      if emb.isEmpty then (st1, .ok memory.memory_id)
      else if chromaFails then (st1, .error "chroma upsert failed")
      else
        ({ st1 with
            chroma := upsertA st1.chroma memory.memory_id
              { embedding := emb, metadata := chromaMetaOf memory, document := memory.content } },
         .ok memory.memory_id)

/-- `MemoryStorage.get_user_identity`: `find_one` by `_id`; any backend
error is caught and yields `None`. -/
def get_user_identity (mongoFails : Bool) (st : StorageState) (user_id : String) :
    Option UserIdentity :=
  if mongoFails then none else st.identity_docs.lookup user_id

/-- `MemoryStorage.update_user_identity`: upsert of the identity document
with `updated_at` overwritten by the current time; returns `False` instead
of raising when the backend fails. -/
def update_user_identity (mongoFails : Bool) (now : Nat) (st : StorageState)
    (identity : UserIdentity) : StorageState × Bool :=
  if mongoFails then (st, false)
  else
    ({ st with
        identity_docs := upsertA st.identity_docs identity.user_id
          { identity with updated_at := now } },
     true)

/-- One condition inside a Chroma `$and` list: either a single
`{key: value}` equality or an `{"$or": [{key: value}, ...]}` of equalities
(the only shapes `search_memories` ever emits). -/
inductive WhereCond where
  | fieldEq : String → String → WhereCond
  | orFields : List (String × String) → WhereCond
deriving DecidableEq

/-- A Chroma `where` clause as built by `search_memories`: a single
`{key: value}` dict or an `{"$and": [...]}` dict. -/
inductive Where where
  | single : String → String → Where
  | conj : List WhereCond → Where
deriving DecidableEq

/-- Metadata field access by key name, mirroring the keys stored by
`save_memory`. -/
def metaGet (m : ChromaMeta) : String → Option String
  | "user_id" => some m.user_id
  | "memory_type" => some m.memory_type
  | "timestamp" => some m.timestamp
  | "is_hive_mind" => some m.is_hive_mind
  | "tags" => some m.tags
  | _ => none

/-- Chroma evaluation of one `$and` member against a metadata record. -/
def condMatches (m : ChromaMeta) : WhereCond → Bool
  | .fieldEq k v => metaGet m k == some v
  | .orFields l => l.any (fun kv => metaGet m kv.1 == some kv.2)

/-- Chroma evaluation of a `where` clause against a metadata record. -/
def matchesWhere (m : ChromaMeta) : Where → Bool
  | .single k v => metaGet m k == some v
  | .conj l => l.all (condMatches m)

/-- The `where_clause` construction of `search_memories` (lines 119-161):
personal queries filter on both `is_hive_mind` and `user_id` (only when
`user_id` is truthy), hive queries on `is_hive_mind` alone; a memory-type
list is appended as a single equality or an `$or`, `$and`-ed with the
scope conditions. -/
def buildWhere (user_id : Option String) (is_hive_mind : Bool)
    (memory_types : Option (List MemoryType)) : Where :=
  let base : Where :=
    if pyTruthyStr user_id && !is_hive_mind then
      .conj [.fieldEq "is_hive_mind" (pyStrBool is_hive_mind),
             .fieldEq "user_id" (user_id.getD "")]
    else
      .single "is_hive_mind" (pyStrBool is_hive_mind)
  match memory_types with
  | none => base
  | some mts =>
    if mts.isEmpty then base
    else
      let vals := mts.map MemoryType.value
      match vals with
      | [v] =>
        match base with
        | .conj l => .conj (l ++ [.fieldEq "memory_type" v])
        | .single k v0 => .conj [.fieldEq k v0, .fieldEq "memory_type" v]
      | _ =>
        let typeConds := vals.map (fun v => ("memory_type", v))
        match base with
        | .conj l => .conj (l ++ [.orFields typeConds])
        | .single k v0 => .conj [.fieldEq k v0, .orFields typeConds]

/-- The Chroma `query` call: the backend ranks all stored ids by similarity
to the query vector (`simOrder`, an external ranking parameter), keeps the
ones whose metadata matches the `where` clause and returns the first
`n_results` of them. -/
def chromaQuery (chroma : List (String × ChromaEntry)) (simOrder : List String)
    (w : Where) (n : Nat) : List String :=
  (simOrder.filter (fun i =>
    match chroma.lookup i with
    | some e => matchesWhere e.metadata w
    | none => false)).take n

/-- `MemoryStorage.search_memories`: build the `where` clause, take the ids
ranked by Chroma, hydrate the full documents from MongoDB (`$in` keeps the
collection's order) and re-sort descending by `recency_value`. The whole
body is wrapped in `try`/`except` returning `[]`, so `chromaFails` and
`mongoFails` (the Chroma query or the Mongo `find` raising) both yield
`[]`. `query_embedding` reaches the backend only through `simOrder`. -/
def search_memories (chromaFails mongoFails : Bool) (st : StorageState)
    (simOrder : List String) (query_embedding : List Rat)
    (user_id : Option String) (is_hive_mind : Bool) (limit : Nat)
    (memory_types : Option (List MemoryType)) : List MemoryNode :=
  if chromaFails then []
  else
    let w := buildWhere user_id is_hive_mind memory_types
    let memory_ids := chromaQuery st.chroma simOrder w limit
    if memory_ids.isEmpty then []
    else if mongoFails then []
    else
      let docs := (st.memory_docs.filter (fun p => memory_ids.contains p.1)).map Prod.snd
      sortDescBy (fun m => m.recency_value) docs

/-- The MongoDB query document of `get_recent_memories`: always
`{"is_hive_mind": flag}`, plus `{"user_id": uid}` only for a truthy
`user_id` on a non-hive query. -/
def recentQueryMatches (user_id : Option String) (is_hive_mind : Bool)
    (m : MemoryNode) : Bool :=
  m.is_hive_mind == is_hive_mind &&
    (if pyTruthyStr user_id && !is_hive_mind then m.user_id == user_id.getD "" else true)

/-- `MemoryStorage.get_recent_memories`: document-store-only query sorted by
`timestamp` descending, first `limit` documents; any backend error yields
`[]`. -/
def get_recent_memories (mongoFails : Bool) (st : StorageState)
    (user_id : Option String) (is_hive_mind : Bool) (limit : Nat) : List MemoryNode :=
  if mongoFails then []
  else
    let docs := (st.memory_docs.filter (fun p => recentQueryMatches user_id is_hive_mind p.2)).map Prod.snd
    (sortDescBy (fun m => m.timestamp) docs).take limit

/-! ## Signal extractor / memory updater (`src/agents/shiva.py`) -/

/-- A scalar JSON value. -/
inductive JScalar where
  | jstr : String → JScalar
  | jnum : Int → JScalar
  | jbool : Bool → JScalar
  | jnull : JScalar
deriving DecidableEq

/-- A JSON value stored under a key of a signal object: a scalar or an
array of scalars (the only distinctions `_extract_memory_signals` and
`_create_memory_node` ever make below one object level). -/
inductive JField where
  | prim : JScalar → JField
  | arr : List JScalar → JField
deriving DecidableEq

/-- One element of the decoded top-level JSON array: an object, a scalar,
or an array (non-objects are skipped by the `isinstance(signal, dict)`
check, so only their kind matters). -/
inductive JVal where
  | obj : List (String × JField) → JVal
  | prim : JScalar → JVal
  | arr : List JScalar → JVal
deriving DecidableEq

/-- A validated signal dict as built by `_extract_memory_signals`:
`{"content": ..., "memory_type": ..., "tags": [...]}`. -/
structure RawSignal where
  content : JField
  memory_type : JField
  tags : List JScalar
deriving DecidableEq

/-- The exchange dict handed to Shiva (`conversation.get` defaults absent
keys to `""`). -/
structure Conversation where
  user_message : String
  assistant_response : String
  system_prompt : String
deriving DecidableEq

/-- The Shiva agent's external handles: classification LLM and embedding
model, each `None` when disabled in config, plus the configured memory-type
names used in the prompt. A service call either returns a value or raises
(`Except.error`). -/
structure ShivaAgent where
  extraction_llm : Option (String → Except Unit String)
  embeddings : Option (String → Except Unit (List Rat))
  memory_types : List String

/-- The classification prompt built in `_extract_memory_signals`
(f-string interpolations become concatenation). -/
def buildPrompt (memory_types : List String) (conv : Conversation) : String :=
  "Analyze the following conversation and extract important memory signals that should be remembered for future interactions.\n\nUser Message: " ++
  conv.user_message ++
  "\n\nAssistant Response: " ++
  conv.assistant_response ++
  "\n\nExtract 1-3 key memory signals. For each signal, provide:\n1. A concise summary (1-2 sentences)\n2. Memory type: one of " ++
  String.intercalate ", " memory_types ++
  "\n3. Relevant tags (comma-separated)\n\nFormat as JSON array:\n[\n  \x7b\n    \"content\": \"memory summary\",\n    \"memory_type\": \"memory_type\",\n    \"tags\": [\"tag1\", \"tag2\"]\n  \x7d\n]\n\nOnly extract memories that are:\n- About the user\x27s identity, preferences, or important facts\n- Emotionally significant\n- Relevant for future conversations\n- Not already obvious from the conversation\n\nJSON:"

/-- Locating the candidate JSON substring:
`start_idx = response.find('[')`, `end_idx = response.rfind(']') + 1`,
sliced only when `start_idx >= 0 and end_idx > start_idx`. -/
def findJsonSlice (s : String) : Option String :=
  let cs := s.data
  match cs.findIdx? (fun c => c = '['), cs.reverse.findIdx? (fun c => c = ']') with
  | some si, some rj =>
    let ei := cs.length - rj
    if si < ei then some (List.asString ((cs.drop si).take (ei - si))) else none
  | _, _ => none

/-- The validation loop of `_extract_memory_signals`: keep only dict
signals whose `content` key is present; default `memory_type` to
`"factual"` when absent; coerce a non-list `tags` value to `[]`. -/
def validateSignals (signals : List JVal) : List RawSignal :=
  signals.filterMap fun s =>
    match s with
    | .obj kvs =>
      match kvs.lookup "content" with
      | some c =>
        some { content := c
               memory_type := (kvs.lookup "memory_type").getD (.prim (.jstr "factual"))
               tags := match kvs.lookup "tags" with
                 | some (.arr l) => l
                 | _ => [] }
      | none => none
    | _ => none

/-- The raw-trace signal returned when extraction is disabled. -/
def fallbackDisabled (conv : Conversation) : RawSignal :=
  { content := .prim (.jstr ("User: " ++ conv.user_message ++ "\nAssistant: " ++ conv.assistant_response))
    memory_type := .prim (.jstr "factual")
    tags := [] }

/-- The fallback signal of the `except` branch (LLM call raised): note it
carries only the first 100 characters of the user message. -/
def fallbackError (conv : Conversation) : RawSignal :=
  { content := .prim (.jstr ("Conversation about: " ++ pyTakeChars 100 conv.user_message))
    memory_type := .prim (.jstr "factual")
    tags := [] }

/-- `ShivaAgent._extract_memory_signals`. `jsonLoads` models stdlib
`json.loads` on the located slice: `some` a decoded array (a slice that
starts with `[` can only decode to a list), `none` a `JSONDecodeError`,
which the code maps to zero signals. An LLM transport error takes the
`except` fallback. -/
def extractMemorySignals (jsonLoads : String → Option (List JVal))
    (agent : ShivaAgent) (conv : Conversation) : List RawSignal :=
  match agent.extraction_llm with
  | none => [fallbackDisabled conv]
  | some llm =>
    match llm (buildPrompt agent.memory_types conv) with
    | .error _ => [fallbackError conv]
    | .ok response_text =>
      let signals : List JVal :=
        match findJsonSlice response_text with
        | some json_str => (jsonLoads json_str).getD []
        | none => []
      validateSignals signals

/-- `signal.get("memory_type", ...)` fed to `MemoryType(...)`: a string
that is a member value maps to it; anything else raises `ValueError`,
caught and defaulted to `FACTUAL`. -/
def memoryTypeOf : JField → MemoryType
  | .prim (.jstr s) => (MemoryType.ofValue? s).getD .factual
  | _ => .factual

/-- Pydantic coercion of a decoded `tags` array into `List[str]`:
`some` when every element is a string, `none` a `ValidationError`. -/
def asStrList (l : List JScalar) : Option (List String) :=
  l.mapM fun v => match v with | .jstr s => some s | _ => none

/-- `ShivaAgent._create_memory_node`. The embedding call sits in its own
`try`/`except`, so an embedding failure only leaves `embedding = None`.
Construction of the pydantic node fails (`None`, via the outer `except`)
when `content` is not a string or `tags` is not a list of strings. -/
def createMemoryNode (embedSvc : Option (String → Except Unit (List Rat)))
    (newId : String) (now : Nat) (user_id : String) (signal : RawSignal)
    (conversation : Conversation) : Option MemoryNode :=
  match signal.content, asStrList signal.tags with
  | .prim (.jstr c), some tagList =>
    let embedding : Option (List Rat) :=
      match embedSvc with
      | none => none
      | some f => match f c with | .ok v => some v | .error _ => none
    some { memory_id := newId
           user_id := user_id
           content := c
           memory_type := memoryTypeOf signal.memory_type
           timestamp := now
           tags := tagList
           recency_value := 1
           source := "conversation"
           embedding := embedding
           conversation_context := some ("User: " ++ conversation.user_message ++ "\nAssistant: " ++ conversation.assistant_response)
           system_prompt_snippet := some (pyTakeChars 500 conversation.system_prompt)
           is_hive_mind := false }
  | _, _ => none

/-- The save loop of `ShivaAgent.process`: create a node per signal
(fresh ids from `ids`), save each created node, collect the returned ids.
A raising `save_memory` aborts the loop with the exception (and the state
reached so far). -/
def processLoop (mongoFails chromaFails : Bool)
    (embedSvc : Option (String → Except Unit (List Rat))) (ids : Nat → String)
    (now : Nat) (user_id : String) (conv : Conversation) :
    List RawSignal → Nat → StorageState → List String →
    StorageState × Except String (List String)
  | [], _, st, acc => (st, .ok acc.reverse)
  | s :: rest, k, st, acc =>
    match createMemoryNode embedSvc (ids k) now user_id s conv with
    | none => processLoop mongoFails chromaFails embedSvc ids now user_id conv rest (k + 1) st acc
    | some node =>
      match save_memory mongoFails chromaFails st node with
      | (st1, .error e) => (st1, .error e)
      | (st1, .ok mid) =>
        processLoop mongoFails chromaFails embedSvc ids now user_id conv rest (k + 1) st1 (mid :: acc)

/-- `ShivaAgent.process`: extract signals, create and save the nodes, then
upsert the identity when one was supplied. The enclosing `try`/`except`
turns any raised error into a logged message and an **empty id list**
(`update_user_identity` itself never raises - it returns `False`). -/
def shivaProcess (jsonLoads : String → Option (List JVal)) (agent : ShivaAgent)
    (mongoFails chromaFails : Bool) (ids : Nat → String) (now : Nat)
    (st : StorageState) (user_id : String) (conv : Conversation)
    (user_identity : Option UserIdentity) : List String × StorageState :=
  let signals := extractMemorySignals jsonLoads agent conv
  match processLoop mongoFails chromaFails agent.embeddings ids now user_id conv signals 0 st [] with
  | (st1, .error _) => ([], st1)
  | (st1, .ok mids) =>
    match user_identity with
    | some ident => (mids, (update_user_identity mongoFails now st1 ident).1)
    | none => (mids, st1)

/-- The node built by `create_hive_mind_memory` (pydantic defaults fill
`conversation_context`/`system_prompt_snippet` with `None`). -/
def hiveNode (newId : String) (now : Nat) (user_id content : String)
    (memory_type : MemoryType) (tags : Option (List String))
    (embedding : Option (List Rat)) : MemoryNode :=
  { memory_id := newId
    user_id := user_id
    content := content
    memory_type := memory_type
    timestamp := now
    tags := tags.getD []
    recency_value := 1
    source := "hive_mind"
    embedding := embedding
    conversation_context := none
    system_prompt_snippet := none
    is_hive_mind := true }

/-- Saving a hive node under `create_hive_mind_memory`'s `try`/`except`:
a raising save is caught and mapped to `None`. -/
def saveHiveNode (mongoFails chromaFails : Bool) (st : StorageState)
    (node : MemoryNode) : StorageState × Option String :=
  match save_memory mongoFails chromaFails st node with
  | (st1, .ok mid) => (st1, some mid)
  | (st1, .error _) => (st1, none)

/-- `ShivaAgent.create_hive_mind_memory`. Unlike `_create_memory_node`,
the `embed_query` call has **no inner** `try`/`except`: when the embedding
service raises, the outer `except` returns `None` before any node is built
or saved. When the service is disabled (`None`) the node is saved with
`embedding = None`. -/
def createHiveMindMemory (agent : ShivaAgent) (mongoFails chromaFails : Bool)
    (st : StorageState) (newId : String) (now : Nat) (user_id content : String)
    (memory_type : MemoryType) (tags : Option (List String)) :
    StorageState × Option String :=
  match agent.embeddings with
  | some f =>
    match f content with
    | .error _ => (st, none)
    | .ok emb => saveHiveNode mongoFails chromaFails st (hiveNode newId now user_id content memory_type tags (some emb))
  | none => saveHiveNode mongoFails chromaFails st (hiveNode newId now user_id content memory_type tags none)

/-- Modelled from the spec: the pipeline orchestrator
(`src/graph/workflow.py`, referenced by `src/api/server.py` but not
included under `src/`) sequences context assembly, generation and the
update-memory stage; by the time the update-memory stage runs, the reply
is already produced, and the run returns that reply together with the ids
`ShivaAgent.process` reports. -/
def pipelineRun (reply : String) (jsonLoads : String → Option (List JVal))
    (agent : ShivaAgent) (mongoFails chromaFails : Bool) (ids : Nat → String)
    (now : Nat) (st : StorageState) (user_id : String) (conv : Conversation)
    (user_identity : Option UserIdentity) : String × List String :=
  (reply, (shivaProcess jsonLoads agent mongoFails chromaFails ids now st user_id conv user_identity).1)

/-! ## Support lemmas about the retrieval layer -/

theorem mem_upsertA_self {β : Type} (l : List (String × β)) (k : String) (v : β) :
    (k, v) ∈ upsertA l k v := by
  unfold upsertA
  by_cases h : l.any (fun p => p.1 == k)
  · simp only [if_pos h]
    rcases List.any_eq_true.1 h with ⟨p, hp, hpk⟩
    exact List.mem_map.2 ⟨p, hp, by simp [hpk]⟩
  · simp [if_neg h]

/-- Any record returned by `search_memories` is hydrated from a document
whose id carries a chroma entry matching the built `where` clause. -/
theorem search_sound {cf mf : Bool} {st : StorageState} {simOrder : List String}
    {qe : List Rat} {uid : Option String} {hive : Bool} {limit : Nat}
    {mts : Option (List MemoryType)} {r : MemoryNode}
    (hr : r ∈ search_memories cf mf st simOrder qe uid hive limit mts) :
    ∃ p, p ∈ st.memory_docs ∧ p.2 = r ∧
      ∃ e, st.chroma.lookup p.1 = some e ∧
        matchesWhere e.metadata (buildWhere uid hive mts) = true := by
  unfold search_memories at hr
  by_cases hcf : cf
  · rw [if_pos hcf] at hr
    exact absurd hr (List.not_mem_nil r)
  · rw [if_neg hcf] at hr
    simp only at hr
    by_cases hempty : (chromaQuery st.chroma simOrder (buildWhere uid hive mts) limit).isEmpty
    · rw [if_pos hempty] at hr
      exact absurd hr (List.not_mem_nil r)
    · rw [if_neg hempty] at hr
      by_cases hmf : mf
      · rw [if_pos hmf] at hr
        exact absurd hr (List.not_mem_nil r)
      · rw [if_neg hmf] at hr
        have hdocs := ((sortDescBy_perm (fun m : MemoryNode => m.recency_value) _).mem_iff).1 hr
        rcases List.mem_map.1 hdocs with ⟨p, hpFil, hpr⟩
        rcases List.mem_filter.1 hpFil with ⟨hpMem, hpCon⟩
        have hpIn : p.1 ∈ chromaQuery st.chroma simOrder (buildWhere uid hive mts) limit := by
          simpa using hpCon
        have hpFil2 := List.mem_of_mem_take hpIn
        have hψ := (List.mem_filter.1 hpFil2).2
        cases hlk : st.chroma.lookup p.1 with
        | none => rw [hlk] at hψ; exact absurd hψ (by simp)
        | some e =>
          rw [hlk] at hψ
          exact ⟨p, hpMem, hpr, e, hlk, hψ⟩

/-- Any record returned by `get_recent_memories` matches the Mongo query
document. -/
theorem recent_sound {mf : Bool} {st : StorageState} {uid : Option String}
    {hive : Bool} {limit : Nat} {r : MemoryNode}
    (hr : r ∈ get_recent_memories mf st uid hive limit) :
    recentQueryMatches uid hive r = true := by
  unfold get_recent_memories at hr
  by_cases hmf : mf
  · rw [if_pos hmf] at hr
    exact absurd hr (List.not_mem_nil r)
  · rw [if_neg hmf] at hr
    simp only at hr
    have h1 := List.mem_of_mem_take hr
    have h2 := ((sortDescBy_perm (fun m : MemoryNode => m.timestamp) _).mem_iff).1 h1
    rcases List.mem_map.1 h2 with ⟨p, hpFil, hpr⟩
    have := (List.mem_filter.1 hpFil).2
    rwa [hpr] at this

/-- A personal query for a truthy owner always carries the
`{"user_id": B}` condition in its `$and` list. -/
theorem buildWhere_personal (B : String) (hB : (B == "") = false)
    (mts : Option (List MemoryType)) :
    ∃ extra, buildWhere (some B) false mts =
      .conj (.fieldEq "is_hive_mind" "False" :: .fieldEq "user_id" B :: extra) := by
  cases mts with
  | none => exact ⟨[], by simp [buildWhere, pyTruthyStr, hB, pyStrBool]⟩
  | some l =>
    cases l with
    | nil => exact ⟨[], by simp [buildWhere, pyTruthyStr, hB, pyStrBool]⟩
    | cons a rest =>
      cases rest with
      | nil =>
        exact ⟨[.fieldEq "memory_type" a.value],
          by simp [buildWhere, pyTruthyStr, hB, pyStrBool]⟩
      | cons b more =>
        exact ⟨[.orFields (("memory_type", a.value) :: ("memory_type", b.value) ::
          more.map (fun v => ("memory_type", v.value)))],
          by simp [buildWhere, pyTruthyStr, hB, pyStrBool]⟩

/-- A matching metadata record for a personal (truthy-owner) query has
exactly that owner. -/
theorem matchesWhere_personal_user {B : String} {m : ChromaMeta}
    {mts : Option (List MemoryType)} (hB : (B == "") = false)
    (h : matchesWhere m (buildWhere (some B) false mts) = true) : m.user_id = B := by
  rcases buildWhere_personal B hB mts with ⟨extra, hbw⟩
  rw [hbw] at h
  have hall := List.all_eq_true.1 h
  have huser := hall (.fieldEq "user_id" B) (by simp)
  simp only [condMatches, metaGet, Option.some_beq_some] at huser
  exact beq_iff_eq.1 huser

/-- A hive query never carries an owner condition: its clause is either the
single `is_hive_mind` equality or an `$and` headed by it. -/
theorem buildWhere_hive (uid : Option String) (mts : Option (List MemoryType)) :
    buildWhere uid true mts = .single "is_hive_mind" "True" ∨
    ∃ extra, buildWhere uid true mts =
      .conj (.fieldEq "is_hive_mind" "True" :: extra) := by
  cases mts with
  | none => exact Or.inl (by simp [buildWhere, pyStrBool])
  | some l =>
    cases l with
    | nil => exact Or.inl (by simp [buildWhere, pyStrBool])
    | cons a rest =>
      cases rest with
      | nil =>
        exact Or.inr ⟨[.fieldEq "memory_type" a.value], by simp [buildWhere, pyStrBool]⟩
      | cons b more =>
        exact Or.inr ⟨[.orFields (("memory_type", a.value) :: ("memory_type", b.value) ::
          more.map (fun v => ("memory_type", v.value)))], by simp [buildWhere, pyStrBool]⟩

/-- A metadata record matching a hive query is flagged `"True"`. -/
theorem matchesWhere_hive {uid : Option String} {m : ChromaMeta}
    {mts : Option (List MemoryType)}
    (h : matchesWhere m (buildWhere uid true mts) = true) : m.is_hive_mind = "True" := by
  rcases buildWhere_hive uid mts with hbw | ⟨extra, hbw⟩
  · rw [hbw] at h
    simp only [matchesWhere, metaGet, Option.some_beq_some] at h
    exact beq_iff_eq.1 h
  · rw [hbw] at h
    have hall := List.all_eq_true.1 h
    have hhive := hall (.fieldEq "is_hive_mind" "True") (by simp)
    simp only [condMatches, metaGet, Option.some_beq_some] at hhive
    exact beq_iff_eq.1 hhive

/-- With no memory-type filter and a non-personal shape (hive query, or
absent/empty owner), the clause is the single `is_hive_mind` equality. -/
theorem buildWhere_no_owner (uid : Option String) (hive : Bool)
    (hcond : (pyTruthyStr uid && !hive) = false) :
    buildWhere uid hive none = .single "is_hive_mind" (pyStrBool hive) := by
  simp [buildWhere, hcond]

/-- After a clean save of a record with a non-empty embedding, a query of
the matching scope shape whose backend ranks that id first returns the
record. -/
theorem mem_search_after_save (st : StorageState) (r : MemoryNode) (emb : List Rat)
    (uid : Option String) (hive : Bool) (limit : Nat) (qe : List Rat)
    (hHive : r.is_hive_mind = hive) (hcond : (pyTruthyStr uid && !hive) = false)
    (hEmb : r.embedding = some emb) (hNe : emb ≠ []) (hlim : 0 < limit) :
    r ∈ search_memories false false (save_memory false false st r).1
      [r.memory_id] qe uid hive limit none := by
  have hNe2 : emb.isEmpty = false := List.isEmpty_eq_false.2 hNe
  have hsave : (save_memory false false st r).1 =
      { st with
        memory_docs := upsertA st.memory_docs r.memory_id r,
        chroma := upsertA st.chroma r.memory_id
          { embedding := emb, metadata := chromaMetaOf r, document := r.content } } := by
    simp [save_memory, hEmb, hNe2]
  rw [hsave]
  have hlk := lookup_upsertA st.chroma r.memory_id
    ({ embedding := emb, metadata := chromaMetaOf r, document := r.content } : ChromaEntry)
  have hmatch : matchesWhere (chromaMetaOf r) (buildWhere uid hive none) = true := by
    rw [buildWhere_no_owner uid hive hcond]
    simp [matchesWhere, metaGet, chromaMetaOf, hHive]
  have hids : chromaQuery (upsertA st.chroma r.memory_id
      { embedding := emb, metadata := chromaMetaOf r, document := r.content })
      [r.memory_id] (buildWhere uid hive none) limit = [r.memory_id] := by
    unfold chromaQuery
    rw [List.filter_cons]
    simp only [hlk, hmatch, List.filter_nil, if_pos]
    exact List.take_of_length_le (by simpa using hlim)
  unfold search_memories
  simp only [if_neg (Bool.false_ne_true)]
  rw [hids]
  simp only [List.isEmpty_cons, Bool.false_eq_true, if_false]
  refine ((sortDescBy_perm (fun m : MemoryNode => m.recency_value) _).mem_iff).2 ?_
  refine List.mem_map.2 ⟨(r.memory_id, r), List.mem_filter.2 ⟨mem_upsertA_self _ _ _, ?_⟩, rfl⟩
  simp

/-- Same shape of query against the store holding exactly one freshly saved
record: `get_recent_memories` returns it. -/
theorem mem_recent_after_save_empty (r : MemoryNode) (uid : Option String)
    (hive : Bool) (limit : Nat)
    (hHive : r.is_hive_mind = hive) (hcond : (pyTruthyStr uid && !hive) = false)
    (hlim : 0 < limit) :
    r ∈ get_recent_memories false (save_memory false false emptyState r).1 uid hive limit := by
  have hdocs : (save_memory false false emptyState r).1.memory_docs = [(r.memory_id, r)] := by
    unfold save_memory
    cases hEmb : r.embedding with
    | none => simp [emptyState, upsertA]
    | some emb =>
      by_cases hne : emb.isEmpty <;> simp [emptyState, upsertA, hne]
  unfold get_recent_memories
  simp only [if_neg (Bool.false_ne_true)]
  rw [hdocs]
  have hq : recentQueryMatches uid hive r = true := by
    unfold recentQueryMatches
    rw [hcond]
    simp [hHive]
  simp only [List.filter_cons, hq, if_pos, List.filter_nil, List.map_cons, List.map_nil]
  have : sortDescBy (fun m : MemoryNode => m.timestamp) [r] = [r] := rfl
  rw [this]
  rw [List.take_of_length_le (by simpa using hlim)]
  exact List.mem_singleton.2 rfl

/-! ## Claim C1 -/

/-- A personal record carrying a non-empty embedding, used as concrete input. -/
def memC1 : MemoryNode :=
  { memory_id := "m1", user_id := "u1", content := "c", memory_type := .factual,
    timestamp := 0, tags := [], recency_value := 1, source := "conversation",
    embedding := some [1], conversation_context := none, system_prompt_snippet := none,
    is_hive_mind := false }

/-- C1 counterexample: with the document write succeeding and the vector
upsert failing, `save_memory` does **not** return the record's id
successfully - the record is in the document store, yet the call ends in
the re-raised error, contradicting the claim that the failure is only
logged. -/
theorem save_memory_c1_counterexample :
    (save_memory false true emptyState memC1).1.memory_docs.lookup "m1" = some memC1 ∧
    (save_memory false true emptyState memC1).2 = Except.error "chroma upsert failed" := by
  decide

/-- C1 amended: if the document-store write succeeds and the vector-index
upsert fails, `save_memory` logs and **re-raises**: the caller observes an
error rather than the record's id, while the document write remains
applied (the two stores may diverge). -/
theorem save_memory_vector_failure_raises (st : StorageState) (memory : MemoryNode)
    (emb : List Rat) (hEmb : memory.embedding = some emb) (hNe : emb ≠ []) :
    (save_memory false true st memory).2 = Except.error "chroma upsert failed" ∧
    (save_memory false true st memory).1.memory_docs.lookup memory.memory_id = some memory := by
  have hNe2 : emb.isEmpty = false := List.isEmpty_eq_false.2 hNe
  constructor
  · simp [save_memory, hEmb, hNe2]
  · simp [save_memory, hEmb, hNe2, lookup_upsertA]

/-- Witness for the C1 amended theorem at the concrete record `memC1`. -/
theorem save_memory_vector_failure_raises_witness :
    (save_memory false true emptyState memC1).2 = Except.error "chroma upsert failed" ∧
    (save_memory false true emptyState memC1).1.memory_docs.lookup "m1" = some memC1 :=
  save_memory_vector_failure_raises emptyState memC1 [1] rfl (by decide)

/-! ## Claim C5 -/

/-- C5: any backend failure inside `search_memories` (the Chroma query or
the Mongo hydration raising) is swallowed by the enclosing
`try`/`except` and yields the empty list; in the embedding no exception
can escape (the function is total). -/
theorem search_memories_fails_soft (st : StorageState) (simOrder : List String)
    (qe : List Rat) (uid : Option String) (hive : Bool) (limit : Nat)
    (mts : Option (List MemoryType)) (mf cf : Bool) :
    search_memories true mf st simOrder qe uid hive limit mts = [] ∧
    search_memories cf true st simOrder qe uid hive limit mts = [] := by
  constructor
  · simp [search_memories]
  · by_cases hcf : cf
    · simp [search_memories, hcf]
    · unfold search_memories
      rw [if_neg (by simp [hcf])]
      simp only
      by_cases hempty : (chromaQuery st.chroma simOrder (buildWhere uid hive mts) limit).isEmpty
      · rw [if_pos hempty]
      · rw [if_neg hempty]
        simp

/-! ## Claim C7 -/

/-- C7: `update_user_identity` is an upsert that always overwrites
`updated_at` with the current time and keeps every other field exactly as
supplied; two calls with the same content store identities equal except
for the refreshed timestamp. -/
theorem put_identity_idempotent_mod_timestamp (st : StorageState)
    (identity : UserIdentity) (now1 now2 : Nat) :
    (update_user_identity false now1 st identity).2 = true ∧
    get_user_identity false (update_user_identity false now1 st identity).1 identity.user_id =
      some { identity with updated_at := now1 } ∧
    get_user_identity false
        ((update_user_identity false now2
          ((update_user_identity false now1 st identity).1) identity).1) identity.user_id =
      some { identity with updated_at := now2 } := by
  refine ⟨by simp [update_user_identity], ?_, ?_⟩
  · simp [update_user_identity, get_user_identity, lookup_upsertA]
  · simp [update_user_identity, get_user_identity, lookup_upsertA]

/-! ## Claim C3 -/

theorem processLoop_mongoFail_ok_empty (cf : Bool)
    (embedSvc : Option (String → Except Unit (List Rat))) (ids : Nat → String)
    (now : Nat) (uid : String) (conv : Conversation) :
    ∀ (signals : List RawSignal) (k : Nat) (st : StorageState) (acc : List String)
      (l : List String),
      (processLoop true cf embedSvc ids now uid conv signals k st acc).2 = .ok l →
      l = acc.reverse := by
  intro signals
  induction signals with
  | nil =>
    intro k st acc l h
    simp [processLoop] at h
    first
    | exact h
    | exact h.symm
  | cons s rest ih =>
    intro k st acc l h
    simp only [processLoop] at h
    cases hc : createMemoryNode embedSvc (ids k) now uid s conv with
    | none =>
      rw [hc] at h
      exact ih (k + 1) st acc l h
    | some node =>
      rw [hc] at h
      simp [save_memory] at h

/-- C3: when every `save_memory` call raises (the Mongo backend failing),
`ShivaAgent.process` swallows the failure and returns an empty id list
(never raising - the embedding is a total function), and the pipeline run
still returns the already-produced reply unchanged, paired with that empty
list. -/
theorem process_save_failure_isolated (jsonLoads : String → Option (List JVal))
    (agent : ShivaAgent) (chromaFails : Bool) (ids : Nat → String) (now : Nat)
    (st : StorageState) (user_id : String) (conv : Conversation)
    (user_identity : Option UserIdentity) (reply : String) :
    (shivaProcess jsonLoads agent true chromaFails ids now st user_id conv user_identity).1 = [] ∧
    pipelineRun reply jsonLoads agent true chromaFails ids now st user_id conv user_identity =
      (reply, []) := by
  have hmain :
      (shivaProcess jsonLoads agent true chromaFails ids now st user_id conv user_identity).1 = [] := by
    simp only [shivaProcess]
    cases hp : processLoop true chromaFails agent.embeddings ids now user_id conv
        (extractMemorySignals jsonLoads agent conv) 0 st [] with
    | mk st1 r =>
      cases r with
      | error e => simp
      | ok mids =>
        have hm : mids = List.reverse [] :=
          processLoop_mongoFail_ok_empty chromaFails agent.embeddings ids now user_id conv
            (extractMemorySignals jsonLoads agent conv) 0 st [] mids (by rw [hp])
        subst hm
        cases user_identity <;> simp
  exact ⟨hmain, by unfold pipelineRun; rw [hmain]⟩

/-! ## Claim C6 -/

/-- Computation law of a failure-free search (shared helper). -/
theorem search_eq_sort (st : StorageState) (simOrder : List String) (qe : List Rat)
    (uid : Option String) (hive : Bool) (limit : Nat)
    (mts : Option (List MemoryType)) :
    search_memories false false st simOrder qe uid hive limit mts =
      if (chromaQuery st.chroma simOrder (buildWhere uid hive mts) limit).isEmpty then []
      else sortDescBy (fun m : MemoryNode => m.recency_value)
        ((st.memory_docs.filter (fun p =>
          (chromaQuery st.chroma simOrder (buildWhere uid hive mts) limit).contains p.1)).map
          Prod.snd) := rfl

theorem eq_nil_of_contains_false {l : List String}
    (h : ∀ i, l.contains i = false) : l = [] := by
  cases l with
  | nil => rfl
  | cons a t =>
    have ha := h a
    simp at ha

/-- C6: the result of a failure-free search is a permutation of the
documents hydrated from the document store for the ids the vector backend
ranked, its final order is descending by `recency_value`, and the
similarity order only selects the candidate set: any backend ranking
producing the same candidate-id membership yields the identical result. -/
theorem search_final_order_by_recency (st : StorageState) (simOrder : List String)
    (qe : List Rat) (uid : Option String) (hive : Bool) (limit : Nat)
    (mts : Option (List MemoryType)) :
    (search_memories false false st simOrder qe uid hive limit mts).Pairwise
      (fun a b => b.recency_value ≤ a.recency_value) ∧
    (¬ (chromaQuery st.chroma simOrder (buildWhere uid hive mts) limit).isEmpty →
      (search_memories false false st simOrder qe uid hive limit mts).Perm
        ((st.memory_docs.filter (fun p =>
          (chromaQuery st.chroma simOrder (buildWhere uid hive mts) limit).contains p.1)).map
          Prod.snd)) ∧
    ((chromaQuery st.chroma simOrder (buildWhere uid hive mts) limit).isEmpty →
      search_memories false false st simOrder qe uid hive limit mts = []) ∧
    (∀ simOrder2 : List String,
      (∀ i, (chromaQuery st.chroma simOrder2 (buildWhere uid hive mts) limit).contains i =
            (chromaQuery st.chroma simOrder (buildWhere uid hive mts) limit).contains i) →
      search_memories false false st simOrder2 qe uid hive limit mts =
        search_memories false false st simOrder qe uid hive limit mts) := by
  by_cases hempty : (chromaQuery st.chroma simOrder (buildWhere uid hive mts) limit).isEmpty
  · refine ⟨?_, fun hc => absurd hempty hc, fun _ => ?_, fun so2 hcon => ?_⟩
    · rw [search_eq_sort, if_pos hempty]
      exact List.Pairwise.nil
    · rw [search_eq_sort, if_pos hempty]
    · have hnil : chromaQuery st.chroma simOrder (buildWhere uid hive mts) limit = [] :=
        List.isEmpty_iff.1 hempty
      have hnil2 : chromaQuery st.chroma so2 (buildWhere uid hive mts) limit = [] := by
        refine eq_nil_of_contains_false fun i => ?_
        rw [hcon i, hnil]
        rfl
      rw [search_eq_sort, search_eq_sort, if_pos hempty, if_pos (by rw [hnil2]; rfl)]
  · refine ⟨?_, fun _ => ?_, fun hc => absurd hc hempty, fun so2 hcon => ?_⟩
    · rw [search_eq_sort, if_neg hempty]
      exact sortDescBy_pairwise _ _
    · rw [search_eq_sort, if_neg hempty]
      exact sortDescBy_perm _ _
    · have hne2 : ¬ (chromaQuery st.chroma so2 (buildWhere uid hive mts) limit).isEmpty := by
        intro he2
        have hnil2 : chromaQuery st.chroma so2 (buildWhere uid hive mts) limit = [] :=
          List.isEmpty_iff.1 he2
        have : chromaQuery st.chroma simOrder (buildWhere uid hive mts) limit = [] := by
          refine eq_nil_of_contains_false fun i => ?_
          rw [← hcon i, hnil2]
          rfl
        exact hempty (by rw [this]; rfl)
      have hfun : (fun p : String × MemoryNode =>
          (chromaQuery st.chroma so2 (buildWhere uid hive mts) limit).contains p.1) =
          (fun p : String × MemoryNode =>
          (chromaQuery st.chroma simOrder (buildWhere uid hive mts) limit).contains p.1) :=
        funext fun p => hcon p.1
      rw [search_eq_sort, search_eq_sort, if_neg hempty, if_neg hne2, hfun]

/-- Fixtures for the C6 witness: two stored personal records of distinct
recency weight, both indexed. -/
def memRecent : MemoryNode :=
  { memory_id := "a1", user_id := "u1", content := "newer", memory_type := .factual,
    timestamp := 2, tags := [], recency_value := 1, source := "conversation",
    embedding := some [1], conversation_context := none, system_prompt_snippet := none,
    is_hive_mind := false }

def memOlder : MemoryNode :=
  { memory_id := "a2", user_id := "u1", content := "older", memory_type := .factual,
    timestamp := 1, tags := [], recency_value := 0, source := "conversation",
    embedding := some [2], conversation_context := none, system_prompt_snippet := none,
    is_hive_mind := false }

def stC6 : StorageState :=
  (save_memory false false (save_memory false false emptyState memRecent).1 memOlder).1

/-- Witness for C6 at a concrete two-record store: even with the vector
backend ranking the low-recency record first, the result is sorted by
descending recency, and a backend ranking with the same candidate set
gives the identical result. -/
theorem search_final_order_by_recency_witness :
    (search_memories false false stC6 ["a2", "a1"] [0] (some "u1") false 3 none).Pairwise
      (fun a b => b.recency_value ≤ a.recency_value) ∧
    search_memories false false stC6 ["a2", "a1"] [0] (some "u1") false 3 none =
      search_memories false false stC6 ["a2", "a1"] [0] (some "u1") false 3 none ∧
    search_memories false false stC6 ["a2", "a1"] [0] (some "u1") false 3 none = [memRecent, memOlder] :=
  ⟨(search_final_order_by_recency stC6 ["a2", "a1"] [0] (some "u1") false 3 none).1,
   (search_final_order_by_recency stC6 ["a2", "a1"] [0] (some "u1") false 3 none).2.2.2
     ["a2", "a1"] (fun _ => rfl),
   by decide⟩

/-! ## Claim C4 -/

/-- C4: scope isolation. Over any store whose document keys are the
records' own ids and whose vector entry for `r.memory_id` (if any) carries
`r`'s metadata (both maintained by `save_memory` under the spec's globally
unique ids), a personal record `r` of owner `r.user_id` is returned
neither by a search nor by a recent query scoped to a different truthy
owner `B`, nor by any hive-scoped query; and any hive record with a
non-empty embedding is retrievable under the hive scope with no owner
filter (for every `uid2`, which the hive query ignores). -/
theorem scope_isolation_invariant (st : StorageState) (r : MemoryNode)
    (simOrder : List String) (qe : List Rat) (B : String) (anyUser : Option String)
    (limit : Nat) (mts : Option (List MemoryType)) (cf mf : Bool)
    (hKeys : ∀ p ∈ st.memory_docs, p.1 = p.2.memory_id)
    (hChroma : ∀ e, st.chroma.lookup r.memory_id = some e → e.metadata = chromaMetaOf r)
    (hPersonal : r.is_hive_mind = false)
    (hB : B ≠ r.user_id) (hBne : B ≠ "") :
    r ∉ search_memories cf mf st simOrder qe (some B) false limit mts ∧
    r ∉ search_memories cf mf st simOrder qe anyUser true limit mts ∧
    r ∉ get_recent_memories mf st (some B) false limit ∧
    r ∉ get_recent_memories mf st anyUser true limit ∧
    (∀ (st2 : StorageState) (r2 : MemoryNode) (emb : List Rat) (uid2 : Option String)
      (lim2 : Nat),
      r2.is_hive_mind = true → r2.embedding = some emb → emb ≠ [] → 0 < lim2 →
      r2 ∈ search_memories false false (save_memory false false st2 r2).1
        [r2.memory_id] qe uid2 true lim2 none ∧
      r2 ∈ get_recent_memories false (save_memory false false emptyState r2).1 uid2 true lim2) := by
  have hBeq : (B == "") = false := beq_eq_false_iff_ne.2 hBne
  refine ⟨?_, ?_, ?_, ?_, ?_⟩
  · intro hr
    obtain ⟨p, hpMem, hpr, e, hlk, hmw⟩ := search_sound hr
    have hkey : p.1 = r.memory_id := by rw [hKeys p hpMem, hpr]
    rw [hkey] at hlk
    have hmeta := hChroma e hlk
    rw [hmeta] at hmw
    have huser := matchesWhere_personal_user hBeq hmw
    simp only [chromaMetaOf] at huser
    exact hB huser.symm
  · intro hr
    obtain ⟨p, hpMem, hpr, e, hlk, hmw⟩ := search_sound hr
    have hkey : p.1 = r.memory_id := by rw [hKeys p hpMem, hpr]
    rw [hkey] at hlk
    have hmeta := hChroma e hlk
    rw [hmeta] at hmw
    have hhive := matchesWhere_hive hmw
    simp only [chromaMetaOf] at hhive
    rw [hPersonal] at hhive
    exact absurd hhive (by decide)
  · intro hr
    have hq := recent_sound hr
    simp [recentQueryMatches, pyTruthyStr, hBeq] at hq
    exact hB hq.2.symm
  · intro hr
    have hq := recent_sound hr
    simp [recentQueryMatches, hPersonal] at hq
  · intro st2 r2 emb uid2 lim2 h1 h2 h3 h4
    exact ⟨mem_search_after_save st2 r2 emb uid2 true lim2 qe h1 (by simp) h2 h3 h4,
           mem_recent_after_save_empty r2 uid2 true lim2 h1 (by simp) h4⟩

/-- A stored personal record (no embedding, so no index entry) of owner
`uA`, used as concrete input for the C4 witness. -/
def memC4 : MemoryNode :=
  { memory_id := "p1", user_id := "uA", content := "personal fact", memory_type := .preference,
    timestamp := 3, tags := [], recency_value := 1, source := "conversation",
    embedding := none, conversation_context := none, system_prompt_snippet := none,
    is_hive_mind := false }

/-- A hive record with a non-empty embedding for the retrievability part
of the C4 witness. -/
def memC4s : MemoryNode :=
  { memory_id := "s1", user_id := "uA", content := "shared insight", memory_type := .factual,
    timestamp := 4, tags := ["w"], recency_value := 1, source := "hive_mind",
    embedding := some [1, 2], conversation_context := none, system_prompt_snippet := none,
    is_hive_mind := true }

def stC4 : StorageState := (save_memory false false emptyState memC4).1

/-- Witness for C4 at the concrete store holding `memC4`. -/
theorem scope_isolation_invariant_witness :
    memC4 ∉ search_memories false false stC4 ["p1"] [0] (some "uB") false 3 none ∧
    memC4 ∉ get_recent_memories false stC4 (some "uB") false 3 ∧
    memC4 ∉ get_recent_memories false stC4 none true 3 ∧
    memC4s ∈ search_memories false false (save_memory false false emptyState memC4s).1
      ["s1"] [0] (some "uB") true 3 none := by
  have h := scope_isolation_invariant stC4 memC4 ["p1"] [0] "uB" none 3 none false false
    (by decide)
    (fun _ he => Option.noConfusion he)
    (by decide) (by decide) (by decide)
  refine ⟨h.1, h.2.2.1, h.2.2.2.1, ?_⟩
  exact (h.2.2.2.2 emptyState memC4s [1, 2] (some "uB") 3
    (by decide) rfl (by decide) (by decide)).1

/-! ## Claim C10 -/

/-- C10: with the hive flag false and an absent or empty `user_id`, both
the vector-search filter and the recent-query filter constrain **only**
`is_hive_mind = false` - no owner condition is added - so such a query
returns personal records regardless of their owner: any freshly saved
personal record is returned no matter what its `user_id` is. -/
theorem unscoped_personal_query_any_owner (m : ChromaMeta) (n : MemoryNode) :
    matchesWhere m (buildWhere none false none) = (m.is_hive_mind == "False") ∧
    matchesWhere m (buildWhere (some "") false none) = (m.is_hive_mind == "False") ∧
    recentQueryMatches none false n = (n.is_hive_mind == false) ∧
    recentQueryMatches (some "") false n = (n.is_hive_mind == false) ∧
    (∀ (r : MemoryNode) (emb qe : List Rat) (limit : Nat),
      r.is_hive_mind = false → r.embedding = some emb → emb ≠ [] → 0 < limit →
      r ∈ search_memories false false (save_memory false false emptyState r).1
        [r.memory_id] qe none false limit none ∧
      r ∈ get_recent_memories false (save_memory false false emptyState r).1 none false limit) := by
  refine ⟨?_, ?_, ?_, ?_, ?_⟩
  · rw [buildWhere_no_owner none false (by simp [pyTruthyStr])]
    simp [matchesWhere, metaGet, pyStrBool]
  · rw [buildWhere_no_owner (some "") false (by simp [pyTruthyStr])]
    simp [matchesWhere, metaGet, pyStrBool]
  · simp [recentQueryMatches, pyTruthyStr]
  · simp [recentQueryMatches, pyTruthyStr]
  · intro r emb qe limit h1 h2 h3 h4
    exact ⟨mem_search_after_save emptyState r emb none false limit qe h1
        (by simp [pyTruthyStr]) h2 h3 h4,
      mem_recent_after_save_empty r none false limit h1 (by simp [pyTruthyStr]) h4⟩

/-- A personal record owned by a user distinct from any querying user,
with an embedding, for the C10 witness. -/
def memC10 : MemoryNode :=
  { memory_id := "x1", user_id := "someone_else", content := "other persons fact",
    memory_type := .factual, timestamp := 9, tags := [], recency_value := 1,
    source := "conversation", embedding := some [3], conversation_context := none,
    system_prompt_snippet := none, is_hive_mind := false }

/-- Witness for C10: the ownerless non-hive query returns another owner's
personal record. -/
theorem unscoped_personal_query_any_owner_witness :
    memC10 ∈ search_memories false false (save_memory false false emptyState memC10).1
      ["x1"] [0] none false 3 none ∧
    memC10 ∈ get_recent_memories false (save_memory false false emptyState memC10).1
      none false 3 :=
  (unscoped_personal_query_any_owner
    { user_id := "z", memory_type := "factual", timestamp := "0",
      is_hive_mind := "False", tags := "" }
    memC10).2.2.2.2 memC10 [3] [0] 3 (by decide) rfl (by decide) (by decide)

/-! ## Claim C2 -/

/-- A `json.loads` model that fails on every input (the located substring
is not well-formed JSON). -/
def jlNone : String → Option (List JVal) := fun _ => none

def convC2 : Conversation :=
  { user_message := "where do I live", assistant_response := "Bangalore", system_prompt := "" }

/-- Enabled classifier answering free text with no structured array at all. -/
def agentC2 : ShivaAgent :=
  { extraction_llm := some (fun _ => .ok "I cannot produce that output"),
    embeddings := none, memory_types := ["factual"] }

/-- Enabled classifier answering text with a bracketed substring that is
not well-formed JSON. -/
def agentC2b : ShivaAgent :=
  { extraction_llm := some (fun _ => .ok "here: [oops] end"),
    embeddings := none, memory_types := ["factual"] }

/-- Classifier disabled. -/
def agentC2off : ShivaAgent :=
  { extraction_llm := none, embeddings := none, memory_types := [] }

/-- Classifier whose transport call raises. -/
def agentC2err : ShivaAgent :=
  { extraction_llm := some (fun _ => .error ()), embeddings := none, memory_types := [] }

/-- C2 counterexample: with the classification capability enabled and its
response containing no parseable structured array (no array located in the
first case; located but malformed in the second), `extract` returns the
**empty** list - not the claimed single fallback signal containing the
user text and the reply. -/
theorem extract_unparseable_c2_counterexample :
    extractMemorySignals jlNone agentC2 convC2 = [] ∧
    extractMemorySignals jlNone agentC2b convC2 = [] := by
  decide

/-- C2 amended: when the enabled classification response has no parseable
array, `extract` returns **zero** signals. The single raw-trace fallback
(content containing both user text and reply) occurs only when the
capability is disabled; when the classification call raises, the fallback
signal carries only the first 100 characters of the user text. -/
theorem extract_fallback_behaviour (jsonLoads : String → Option (List JVal))
    (agent : ShivaAgent) (conv : Conversation) :
    (agent.extraction_llm = none →
      extractMemorySignals jsonLoads agent conv = [fallbackDisabled conv]) ∧
    (∀ llm resp, agent.extraction_llm = some llm →
      llm (buildPrompt agent.memory_types conv) = .ok resp →
      (∀ s, findJsonSlice resp = some s → jsonLoads s = none) →
      extractMemorySignals jsonLoads agent conv = []) ∧
    (∀ llm err, agent.extraction_llm = some llm →
      llm (buildPrompt agent.memory_types conv) = .error err →
      extractMemorySignals jsonLoads agent conv = [fallbackError conv]) := by
  refine ⟨fun h => by simp [extractMemorySignals, h], ?_, ?_⟩
  · intro llm resp hl hr hp
    simp only [extractMemorySignals, hl, hr]
    cases hfs : findJsonSlice resp with
    | none => simp [validateSignals]
    | some s => simp [hp s hfs, validateSignals]
  · intro llm err hl hr
    simp [extractMemorySignals, hl, hr]

/-- Witness for the C2 amended theorem at the three concrete agents. -/
theorem extract_fallback_behaviour_witness :
    extractMemorySignals jlNone agentC2 convC2 = [] ∧
    extractMemorySignals jlNone agentC2off convC2 = [fallbackDisabled convC2] ∧
    extractMemorySignals jlNone agentC2err convC2 = [fallbackError convC2] :=
  ⟨(extract_fallback_behaviour jlNone agentC2 convC2).2.1 _ _ rfl rfl (fun _ _ => rfl),
   (extract_fallback_behaviour jlNone agentC2off convC2).1 rfl,
   (extract_fallback_behaviour jlNone agentC2err convC2).2.2 _ () rfl rfl⟩

/-! ## Claim C8 -/

def convC8 : Conversation :=
  { user_message := "m", assistant_response := "r", system_prompt := "" }

/-- The record materialized from a signal whose content is the empty
string. -/
def nodeC8 : MemoryNode :=
  { memory_id := "n1", user_id := "u1", content := "", memory_type := .factual,
    timestamp := 0, tags := [], recency_value := 1, source := "conversation",
    embedding := none, conversation_context := some "User: m\nAssistant: r",
    system_prompt_snippet := some "", is_hive_mind := false }

/-- C8 counterexample: validation only checks that the `content` **key**
is present - a signal whose content is the empty string passes validation
and materializes a record whose `content` is empty, contradicting the
claimed non-empty-content requirement. -/
theorem signal_validation_c8_counterexample :
    validateSignals [.obj [("content", .prim (.jstr ""))]] =
      [{ content := .prim (.jstr ""), memory_type := .prim (.jstr "factual"), tags := [] }] ∧
    createMemoryNode none "n1" 0 "u1"
      { content := .prim (.jstr ""), memory_type := .prim (.jstr "factual"), tags := [] }
      convC8 = some nodeC8 ∧
    nodeC8.content = "" := by
  decide

/-- C8 amended: validation requires only the **presence** of the `content`
key (empty content is accepted and materializes a record with empty
content); a dict without the key is rejected; an absent `memory_type`
defaults to `"factual"` and an invalid one maps to `factual` at node
creation; a non-sequence `tags` value coerces to the empty list; the
materialized category always lies in the closed four-member set (it is a
`MemoryType`). -/
theorem signal_validation_amended (kvs : List (String × JField))
    (esvc : Option (String → Except Unit (List Rat))) (nid : String) (now : Nat)
    (uidS : String) (conv : Conversation) :
    (∀ c, kvs.lookup "content" = some c →
      validateSignals [.obj kvs] =
        [{ content := c,
           memory_type := (kvs.lookup "memory_type").getD (.prim (.jstr "factual")),
           tags := match kvs.lookup "tags" with | some (.arr l) => l | _ => [] }]) ∧
    (kvs.lookup "content" = none → validateSignals [.obj kvs] = []) ∧
    (∀ s ty tags node,
      createMemoryNode esvc nid now uidS
        { content := .prim (.jstr s), memory_type := ty, tags := tags } conv = some node →
      node.content = s ∧ node.memory_type = memoryTypeOf ty) ∧
    (∀ tyStr, MemoryType.ofValue? tyStr = none →
      memoryTypeOf (.prim (.jstr tyStr)) = .factual) ∧
    memoryTypeOf (.prim .jnull) = .factual := by
  refine ⟨?_, ?_, ?_, ?_, rfl⟩
  · intro c h
    simp [validateSignals, h]
  · intro h
    simp [validateSignals, h]
  · intro s ty tags node h
    cases hts : asStrList tags with
    | none => simp [createMemoryNode, hts] at h
    | some tl =>
      simp only [createMemoryNode, hts, Option.some.injEq] at h
      subst h
      exact ⟨rfl, rfl⟩
  · intro tyStr h
    simp [memoryTypeOf, h]

def kvsC8 : List (String × JField) :=
  [("content", .prim (.jstr "likes tea")), ("tags", .prim .jnull)]

/-- Witness for the C8 amended theorem at a concrete signal dict with a
non-sequence `tags` value and at an invalid category string. -/
theorem signal_validation_amended_witness :
    validateSignals [.obj kvsC8] =
      [{ content := .prim (.jstr "likes tea"), memory_type := .prim (.jstr "factual"),
         tags := [] }] ∧
    memoryTypeOf (.prim (.jstr "bogus")) = .factual := by
  constructor
  · rw [(signal_validation_amended kvsC8 none "n2" 0 "u1" convC8).1
      (.prim (.jstr "likes tea")) (by decide)]
    decide
  · exact (signal_validation_amended kvsC8 none "n2" 0 "u1" convC8).2.2.2.1 "bogus" (by decide)

/-! ## Claim C9 -/

/-- An embedding service whose call always raises. -/
def embFail : String → Except Unit (List Rat) := fun _ => .error ()

/-- Agent with extraction disabled and a raising embedding service. -/
def agentC9 : ShivaAgent :=
  { extraction_llm := none, embeddings := some embFail, memory_types := [] }

/-- C9 counterexample: in `create_hive_mind_memory` a raising embedding
service is **fatal** - the call returns `None` and nothing is saved (the
stores are unchanged), contradicting the claim that the record is still
created and saved with its embedding absent. -/
theorem embedding_failure_c9_counterexample :
    createHiveMindMemory agentC9 false false emptyState "m9" 0 "u1" "insight" .factual none =
      (emptyState, none) := by
  decide

/-- C9 amended: in the signal-conversion path (`_create_memory_node`)
embedding absence or failure is never fatal - the node is still created
with `embedding = None`; in `create_hive_mind_memory` only **absence** of
the service is non-fatal (the record is saved without an embedding), while
a raising embed call aborts the operation: no id is returned and nothing
is saved. -/
theorem embedding_absence_and_failure_paths (f : String → Except Unit (List Rat))
    (nid : String) (now : Nat) (uidS : String) (conv : Conversation) (ag : ShivaAgent)
    (st : StorageState) (content : String) (mt : MemoryType)
    (tags : Option (List String)) (mf cf : Bool) (c : String) (ty : JField)
    (tagsJ : List JScalar) (tl : List String) :
    (asStrList tagsJ = some tl → f c = .error () →
      ∀ node, createMemoryNode (some f) nid now uidS
        { content := .prim (.jstr c), memory_type := ty, tags := tagsJ } conv = some node →
        node.embedding = none) ∧
    (asStrList tagsJ = some tl →
      (createMemoryNode (some f) nid now uidS
        { content := .prim (.jstr c), memory_type := ty, tags := tagsJ } conv).isSome ∧
      (createMemoryNode none nid now uidS
        { content := .prim (.jstr c), memory_type := ty, tags := tagsJ } conv).isSome) ∧
    (∀ node, createMemoryNode none nid now uidS
        { content := .prim (.jstr c), memory_type := ty, tags := tagsJ } conv = some node →
      node.embedding = none) ∧
    (ag.embeddings = none →
      (createHiveMindMemory ag false false st nid now uidS content mt tags).2 = some nid ∧
      (createHiveMindMemory ag false false st nid now uidS content mt tags).1.memory_docs.lookup nid =
        some (hiveNode nid now uidS content mt tags none)) ∧
    (∀ f2, ag.embeddings = some f2 → f2 content = .error () →
      createHiveMindMemory ag mf cf st nid now uidS content mt tags = (st, none)) := by
  refine ⟨?_, ?_, ?_, ?_, ?_⟩
  · intro hts hf node h
    simp only [createMemoryNode, hts, hf, Option.some.injEq] at h
    subst h
    rfl
  · intro hts
    constructor <;> simp [createMemoryNode, hts]
  · intro node h
    cases hts : asStrList tagsJ with
    | none => simp [createMemoryNode, hts] at h
    | some tl2 =>
      simp only [createMemoryNode, hts, Option.some.injEq] at h
      subst h
      rfl
  · intro hemb
    constructor
    · simp [createHiveMindMemory, hemb, saveHiveNode, save_memory, hiveNode]
    · simp [createHiveMindMemory, hemb, saveHiveNode, save_memory, hiveNode, lookup_upsertA]
  · intro f2 hf2 hc
    simp [createHiveMindMemory, hf2, hc]

/-- Agent with extraction disabled and no embedding service. -/
def agentC9off : ShivaAgent :=
  { extraction_llm := none, embeddings := none, memory_types := [] }

/-- Witness for the C9 amended theorem at concrete inputs: the raising
service leaves the signal-path node embeddingless but aborts the hive
path; the absent service saves the hive record. -/
theorem embedding_absence_and_failure_paths_witness :
    (createMemoryNode (some embFail) "n3" 0 "u1"
      { content := .prim (.jstr "x"), memory_type := .prim (.jstr "factual"), tags := [] }
      convC8).isSome ∧
    createHiveMindMemory agentC9 false false emptyState "n3" 0 "u1" "insight" .factual none =
      (emptyState, none) ∧
    (createHiveMindMemory agentC9off false false emptyState "n3" 0 "u1" "insight" .factual none).2 =
      some "n3" :=
  ⟨((embedding_absence_and_failure_paths embFail "n3" 0 "u1" convC8 agentC9 emptyState
      "insight" .factual none false false "x" (.prim (.jstr "factual")) [] []).2.1 rfl).1,
   (embedding_absence_and_failure_paths embFail "n3" 0 "u1" convC8 agentC9 emptyState
      "insight" .factual none false false "x" (.prim (.jstr "factual")) [] []).2.2.2.2
      embFail rfl rfl,
   ((embedding_absence_and_failure_paths embFail "n3" 0 "u1" convC8 agentC9off emptyState
      "insight" .factual none false false "x" (.prim (.jstr "factual")) [] []).2.2.2.1 rfl).1⟩

end MeeraOS
